import Mathlib

/-!
Shallow embedding of the Finance_Dashboard quote/portfolio core
(`src/api.py`, `src/portfolio.py`, `src/util/util.py`, `src/models.py`).

Modelling conventions:
* Python strings are lists of Unicode code points (`PyStr`); `str` converts
  a Lean string literal to that form.
* Python floats are modelled as rationals (`ℚ`); `repr(float)` round-trips
  exactly through CSV/JSON in Python, so persisted numbers stay rationals.
* Timestamps are abstract `Nat` instants; ISO formatting and re-parsing
  round-trip and are modelled as the identity on the instant.
* The upstream yfinance feed and its exceptions are an oracle supplied per
  call: `Except E` values, `E` being the type of the raised exception.
* The JSON quote cache is an association list with Python-dict update
  semantics (existing key keeps its position, new key is appended); the CSV
  files are lists of typed rows, the header row being implicit.
-/

namespace FinDash

/-- Python strings, as lists of Unicode code points. -/
abbrev PyStr := List Nat

/-- Conversion of a Lean string literal into the code-point model. -/
def str (s : String) : PyStr := s.data.map Char.toNat

/-- Model of `str.lower` on one code point. Exact on ASCII and on U+0131
(dotless ı, already lowercase in CPython); other code points are modelled as
case-invariant. CPython's full Unicode lowercasing maps further non-ASCII
points; no statement below depends on those: every universally quantified
normalization property is restricted to ASCII inputs, where this model is
exact, and the concrete non-idempotence inputs use only U+0131. -/
def pyLowerChar (n : Nat) : Nat := if 65 ≤ n ∧ n ≤ 90 then n + 32 else n

/-- Model of `str.upper` on one code point. Exact on ASCII and on U+0131
(dotless ı, which CPython uppercases to the ASCII letter `I`, so
`"bıtcoin".upper() == "BITCOIN"`); other code points are modelled as
case-invariant, with the same scope note as `pyLowerChar`. -/
def pyUpperChar (n : Nat) : Nat :=
  if 97 ≤ n ∧ n ≤ 122 then n - 32 else if n = 305 then 73 else n

/-- Whitespace recognised by `str.strip`: the CPython Unicode whitespace set
(0x09–0x0D, 0x1C–0x20, NEL, NBSP, Ogham space, 0x2000–0x200A, LS, PS,
narrow NBSP, MMSP, ideographic space). -/
def isSpaceChar (n : Nat) : Bool :=
  decide ((9 ≤ n ∧ n ≤ 13) ∨ (28 ≤ n ∧ n ≤ 32) ∨ n = 133 ∨ n = 160 ∨
    n = 5760 ∨ (8192 ≤ n ∧ n ≤ 8202) ∨ n = 8232 ∨ n = 8233 ∨ n = 8239 ∨
    n = 8287 ∨ n = 12288)

/-- Model of `str.lower`. -/
def pyLower (s : PyStr) : PyStr := s.map pyLowerChar

/-- Model of `str.upper`. -/
def pyUpper (s : PyStr) : PyStr := s.map pyUpperChar

/-- Model of `str.strip`: drop leading and trailing whitespace. -/
def pyStrip (s : PyStr) : PyStr :=
  ((s.dropWhile isSpaceChar).reverse.dropWhile isSpaceChar).reverse

/-- Python `dict.get`: value of the first (unique, for a dict) matching key. -/
def dictGet {V : Type} (m : List (PyStr × V)) (k : PyStr) : Option V :=
  (m.find? (fun kv => decide (kv.1 = k))).map (·.2)

/-- Python `dict[k] = v`: overwrite in place if the key exists, else append. -/
def dictInsert {V : Type} (m : List (PyStr × V)) (k : PyStr) (v : V) :
    List (PyStr × V) :=
  if m.any (fun kv => decide (kv.1 = k)) then
    m.map (fun kv => if kv.1 = k then (k, v) else kv)
  else
    m ++ [(k, v)]

/-- Alias table `SYMBOL_ALIASES` from `util/util.py`. -/
def SYMBOL_ALIASES : List (PyStr × PyStr) :=
  [ (str "btc", str "BTC-USD"), (str "bitcoin", str "BTC-USD"),
    (str "eth", str "ETH-USD"), (str "ethereum", str "ETH-USD"),
    (str "egld", str "EGLD-USD"),
    (str "eurusd", str "EURUSD=X"), (str "eur-usd", str "EURUSD=X"),
    (str "eur/usd", str "EURUSD=X"),
    (str "usdrub", str "USDRUB=X"), (str "usd-rub", str "USDRUB=X"),
    (str "usd/rub", str "USDRUB=X"),
    (str "eurron", str "EURRON=X"), (str "eur-ron", str "EURRON=X"),
    (str "eur/ron", str "EURRON=X"),
    (str "usdron", str "USDRON=X"), (str "usd-ron", str "USDRON=X"),
    (str "nvidia", str "NVDA"), (str "tsla", str "TSLA"),
    (str "aapl", str "AAPL"), (str "amd", str "AMD"),
    (str "msft", str "MSFT") ]

/-- Embedding of `normalize_symbol` (`util/util.py` lines 94–96):
strip, lower-case, alias lookup, upper-cased fallback. -/
def normalize_symbol (sym : PyStr) : PyStr :=
  let s := pyLower (pyStrip sym)
  match dictGet SYMBOL_ALIASES s with
  | some v => v
  | none => pyUpper s

/-- Model of one CSV/JSON field fed to `safe_float`: either it parses as a
float (`numeric`) or `float(val)` raises (`malformed`). The string-stripping
and parsing internals of Python `float` are absorbed into the `Cell` value. -/
inductive Cell where
  | numeric (q : ℚ)
  | malformed
deriving DecidableEq

/-- Embedding of `safe_float` (`util/util.py` lines 47–53): parsed value on
success, the supplied default on any parse failure, never an exception. -/
def safe_float (val : Cell) (default : ℚ) : ℚ :=
  match val with
  | .numeric q => q
  | .malformed => default

/-- Boolean test for "`sub` occurs somewhere in `l`" (Python `in` on str). -/
def hasSub (sub : PyStr) : PyStr → Bool
  | [] => sub.isPrefixOf []
  | a :: t => sub.isPrefixOf (a :: t) || hasSub sub t

/-- Embedding of `currency_symbol` (`util/util.py` lines 98–106). -/
def currency_symbol (symbol : PyStr) : PyStr :=
  let sym := pyUpper symbol
  if (str "-USD").isSuffixOf sym || (str "=X").isSuffixOf sym ||
      hasSub (str "USD") sym then str "$"
  else if hasSub (str "EUR") sym then str "€"
  else if hasSub (str "RON") sym then str "lei"
  else []

/-- Embedding of the `Quote` dataclass (`models.py`). -/
structure Quote where
  symbol : PyStr
  price : ℚ
  change : ℚ
  change_percent : ℚ
  last_refreshed : Nat
  source : PyStr
  quantity : ℚ
  cost_basis : ℚ
deriving DecidableEq

/-- Embedding of the `Point` dataclass (`models.py`). -/
structure Point where
  time : Nat
  close : ℚ
deriving DecidableEq

/-- Embedding of the `Series` dataclass (`models.py`). -/
structure Series where
  symbol : PyStr
  points : List Point
deriving DecidableEq

/-- One entry of `cache.json` as written by `_save_cache`. -/
structure CacheEntry where
  symbol : PyStr
  price : ℚ
  change : ℚ
  change_percent : ℚ
  last_refreshed : Nat
  source : PyStr
deriving DecidableEq

/-- One row of `history.csv` as written by `_save_history`. -/
structure HistRow where
  symbol : PyStr
  price : ℚ
  change : ℚ
  change_percent : ℚ
  timestamp : Nat
  source : PyStr
deriving DecidableEq

/-- Upstream feed oracle for one `get_quote` call: the `fast_info` lastPrice
access, the `history(period="1d")` last close, and the wall clock.
`Except.error` models the corresponding Python call raising; `none` models
a missing `lastPrice` key resp. an empty history frame. -/
structure Feed (E : Type) where
  lastPrice : Except E (Option ℚ)
  dailyBar : Except E (Option ℚ)
  now : Nat

/-- Embedding of the live part of `get_quote` (`api.py` lines 28–38):
fast_info price, daily-bar retry when the price is missing or zero, and the
final coercion of a missing price to `0.0`. -/
def livePrice {E : Type} (feed : Feed E) : Except E ℚ := do
  let price0 ← feed.lastPrice
  let price1 ←
    if price0 = none ∨ price0 = some 0 then
      match feed.dailyBar with
      | .error e => Except.error e
      | .ok none => pure price0
      | .ok (some c) => pure (some c)
    else
      pure price0
  pure (price1.getD 0)

/-- Durable client state: the `cache.json` mapping and `history.csv` rows. -/
structure ClientState where
  cache : List (PyStr × CacheEntry)
  history : List HistRow
deriving DecidableEq

/-- Terminal `get_quote` failure (`RuntimeError` at `api.py` line 71),
carrying the requested symbol and the exception caught at line 52. -/
structure NoData (E : Type) where
  symbol : PyStr
  cause : E
deriving DecidableEq

/-- Projection of a `Quote` into a cache entry (`_save_cache` body). -/
def entryOf (quote : Quote) : CacheEntry :=
  ⟨quote.symbol, quote.price, quote.change, quote.change_percent,
    quote.last_refreshed, quote.source⟩

/-- Projection of a `Quote` into a history row (`_save_history` body). -/
def histRowOf (quote : Quote) : HistRow :=
  ⟨quote.symbol, quote.price, quote.change, quote.change_percent,
    quote.last_refreshed, quote.source⟩

/-- Embedding of `_save_cache` (`api.py` lines 92–107): rewrite the mapping
with the entry for `symbol` overwritten. -/
def save_cache (cache : List (PyStr × CacheEntry)) (symbol : PyStr)
    (quote : Quote) : List (PyStr × CacheEntry) :=
  dictInsert cache symbol (entryOf quote)

/-- Embedding of `_load_cache` (`api.py` lines 109–125): rebuild a `Quote`
from the stored entry, tagged `source="cache"`. -/
def load_cache (cache : List (PyStr × CacheEntry)) (symbol : PyStr) :
    Option Quote :=
  (dictGet cache symbol).map (fun entry =>
    ⟨entry.symbol, entry.price, entry.change, entry.change_percent,
      entry.last_refreshed, str "cache", 0, 0⟩)

/-- Embedding of `_save_history` (`api.py` lines 128–142): append one row. -/
def save_history (history : List HistRow) (quote : Quote) : List HistRow :=
  history ++ [histRowOf quote]

/-- Embedding of the history scan at `api.py` lines 58–70: first matching row
of the reversed row list. -/
def findHistory (history : List HistRow) (norm : PyStr) : Option HistRow :=
  history.reverse.find? (fun row => decide (row.symbol = norm))

/-- Quote rebuilt from a history row (`api.py` lines 63–70). -/
def histQuote (row : HistRow) : Quote :=
  ⟨row.symbol, row.price, row.change, row.change_percent, row.timestamp,
    str "offline-history", 0, 0⟩

/-- Embedding of the `except` branch of `get_quote` (`api.py` lines 52–71):
cache lookup, then backward history scan, then the terminal failure. -/
def runFallback {E : Type} (st : ClientState) (symbol : PyStr) (cause : E) :
    Except (NoData E) Quote :=
  match load_cache st.cache (normalize_symbol symbol) with
  | some cached => .ok cached
  | none =>
    match findHistory st.history (normalize_symbol symbol) with
    | some row => .ok (histQuote row)
    | none => .error ⟨symbol, cause⟩

/-- Embedding of `YahooFinanceClient.get_quote` (`api.py` lines 21–71):
live attempt, persistence on success, fallback chain on an exception. -/
def get_quote {E : Type} (feed : Feed E) (st : ClientState) (symbol : PyStr) :
    Except (NoData E) Quote × ClientState :=
  match livePrice feed with
  | .ok price =>
    let yf_symbol := normalize_symbol symbol
    let quote : Quote := ⟨yf_symbol, price, 0, 0, feed.now, str "yfinance", 0, 0⟩
    (.ok quote, ⟨save_cache st.cache yf_symbol quote, save_history st.history quote⟩)
  | .error e => (runFallback st symbol e, st)

/-- Embedding of `YahooFinanceClient.get_daily` (`api.py` lines 75–89): one
`Point` per returned daily bar, empty series on any upstream exception. The
upstream response is an oracle returning the `(time, close)` bars. -/
def get_daily {E : Type} (feed : PyStr → PyStr → Except E (List (Nat × ℚ)))
    (symbol range : PyStr) : Series :=
  match feed symbol range with
  | .ok rows => ⟨symbol, rows.map (fun bar => ⟨bar.1, bar.2⟩)⟩
  | .error _ => ⟨symbol, []⟩

/-- One raw row of `portfolio.csv`: free-form symbol text and two cells. -/
structure RawRow where
  symbol : PyStr
  quantity : Cell
  buy_price : Cell
deriving DecidableEq

/-- Holding as produced by `_load_portfolio`. -/
structure Holding where
  symbol : PyStr
  quantity : ℚ
  buy_price : ℚ
deriving DecidableEq

/-- Embedding of `_load_portfolio` (`portfolio.py` lines 8–21): normalize the
symbol and safe-parse both numeric fields of every row. -/
def load_portfolio (file : List RawRow) : List Holding :=
  file.map (fun row =>
    ⟨normalize_symbol row.symbol, safe_float row.quantity 0,
      safe_float row.buy_price 0⟩)

/-- Embedding of `_save_portfolio` (`portfolio.py` lines 23–30): write one row
per holding; a written float cell re-parses to the same rational. -/
def save_portfolio (holdings : List Holding) : List RawRow :=
  holdings.map (fun h => ⟨h.symbol, .numeric h.quantity, .numeric h.buy_price⟩)

/-- Embedding of `add_holding` (`portfolio.py` lines 32–41). -/
def add_holding (file : List RawRow) (symbol : PyStr) (quantity buy_price : ℚ) :
    List RawRow :=
  save_portfolio (load_portfolio file ++
    [⟨normalize_symbol symbol, quantity, buy_price⟩])

/-- Embedding of `remove_holding` (`portfolio.py` lines 43–47). -/
def remove_holding (file : List RawRow) (symbol : PyStr) : List RawRow :=
  save_portfolio ((load_portfolio file).filter
    (fun h => decide (h.symbol ≠ normalize_symbol symbol)))

/-- Enriched valuation row produced by `enrich_portfolio`. -/
structure EnrichedHolding where
  symbol : PyStr
  quantity : ℚ
  buy_price : ℚ
  total_spent : ℚ
  current_price : Option ℚ
  value : Option ℚ
  pl : ℚ
  pl_percent : ℚ
  currency : PyStr
  source : PyStr
deriving DecidableEq

/-- Embedding of one iteration of the `enrich_portfolio` loop (`portfolio.py`
lines 53–89). The API client is the oracle `fetch`: `some q` when
`get_quote` returns quote `q`, `none` when it raises. -/
def enrich_one (fetch : PyStr → Option Quote) (h : Holding) : EnrichedHolding :=
  let total_spent := h.quantity * h.buy_price
  match fetch h.symbol with
  | some quote =>
    let value := h.quantity * quote.price
    let pl := value - total_spent
    ⟨h.symbol, h.quantity, h.buy_price, total_spent, some quote.price,
      some value, pl, if total_spent ≠ 0 then pl / total_spent * 100 else 0,
      currency_symbol h.symbol, quote.source⟩
  | none =>
    ⟨h.symbol, h.quantity, h.buy_price, total_spent, none, none, 0, 0,
      currency_symbol h.symbol, str "local-cache"⟩

/-- Embedding of `enrich_portfolio` (`portfolio.py` lines 49–90). -/
def enrich_portfolio (fetch : PyStr → Option Quote) (file : List RawRow) :
    List EnrichedHolding :=
  (load_portfolio file).map (enrich_one fetch)

/-! Helper lemmas about the string model. -/

lemma ascii_pyLowerChar_pyUpperChar {n : Nat} (h : n < 128) :
    pyLowerChar (pyUpperChar n) = pyLowerChar n := by
  simp only [pyLowerChar, pyUpperChar]
  by_cases h1 : 97 ≤ n ∧ n ≤ 122
  · rw [if_pos h1, if_neg (by omega : ¬(65 ≤ n ∧ n ≤ 90)),
      if_pos (by omega : 65 ≤ n - 32 ∧ n - 32 ≤ 90)]
    omega
  · rw [if_neg h1, if_neg (by omega : ¬n = 305)]

lemma ascii_pyLowerChar {n : Nat} (h : n < 128) : pyLowerChar n < 128 := by
  simp only [pyLowerChar]
  split <;> omega

lemma pyLowerChar_idem (n : Nat) :
    pyLowerChar (pyLowerChar n) = pyLowerChar n := by
  simp only [pyLowerChar]
  by_cases h1 : 65 ≤ n ∧ n ≤ 90
  · rw [if_pos h1, if_neg (by omega : ¬(65 ≤ n + 32 ∧ n + 32 ≤ 90))]
  · rw [if_neg h1, if_neg h1]

lemma isSpaceChar_pyUpperChar (n : Nat) :
    isSpaceChar (pyUpperChar n) = isSpaceChar n := by
  simp only [isSpaceChar, pyUpperChar]
  rw [decide_eq_decide]
  split
  · omega
  · split <;> omega

lemma isSpaceChar_pyLowerChar (n : Nat) :
    isSpaceChar (pyLowerChar n) = isSpaceChar n := by
  simp only [isSpaceChar, pyLowerChar]
  rw [decide_eq_decide]
  split <;> omega

lemma dropWhile_self {α : Type} (p : α → Bool) (l : List α) :
    (l.dropWhile p).dropWhile p = l.dropWhile p := by
  induction l with
  | nil => rfl
  | cons a t ih =>
    rw [List.dropWhile_cons]
    split
    · exact ih
    · rw [List.dropWhile_cons, if_neg (by assumption)]

lemma dropWhile_fix_of_append {α : Type} (p : α → Bool) {l s : List α}
    (h : (l ++ s).dropWhile p = l ++ s) : l.dropWhile p = l := by
  cases l with
  | nil => rfl
  | cons a t =>
    rw [List.cons_append, List.dropWhile_cons] at h
    by_cases hpa : p a = true
    · rw [if_pos hpa] at h
      have hlen := congrArg List.length h
      have hle := (List.dropWhile_sublist (l := t ++ s) p).length_le
      simp only [List.length_cons, List.length_append] at hlen hle
      omega
    · rw [List.dropWhile_cons, if_neg hpa]

lemma pyStrip_idem (s : PyStr) : pyStrip (pyStrip s) = pyStrip s := by
  unfold pyStrip
  have h1 : ((s.dropWhile isSpaceChar).reverse.dropWhile
      isSpaceChar).reverse.dropWhile isSpaceChar =
      ((s.dropWhile isSpaceChar).reverse.dropWhile isSpaceChar).reverse := by
    obtain ⟨t, ht⟩ :=
      List.dropWhile_suffix (l := (s.dropWhile isSpaceChar).reverse) isSpaceChar
    have hm : s.dropWhile isSpaceChar =
        ((s.dropWhile isSpaceChar).reverse.dropWhile isSpaceChar).reverse ++
          t.reverse := by
      have h2 := congrArg List.reverse ht
      simpa [List.reverse_append] using h2.symm
    exact dropWhile_fix_of_append isSpaceChar
      (by rw [← hm]; exact dropWhile_self _ _)
  rw [h1, List.reverse_reverse, dropWhile_self]

lemma pyStrip_map (f : Nat → Nat) (hf : ∀ n, isSpaceChar (f n) = isSpaceChar n)
    (s : PyStr) : pyStrip (s.map f) = (pyStrip s).map f := by
  have hcomp : (isSpaceChar ∘ f) = isSpaceChar := funext hf
  unfold pyStrip
  rw [List.dropWhile_map, hcomp, ← List.map_reverse, List.dropWhile_map, hcomp,
    ← List.map_reverse]

lemma pyStrip_pyUpper (s : PyStr) : pyStrip (pyUpper s) = pyUpper (pyStrip s) :=
  pyStrip_map pyUpperChar isSpaceChar_pyUpperChar s

lemma pyStrip_pyLower (s : PyStr) : pyStrip (pyLower s) = pyLower (pyStrip s) :=
  pyStrip_map pyLowerChar isSpaceChar_pyLowerChar s

lemma mem_pyStrip {s : PyStr} {c : Nat} (h : c ∈ pyStrip s) : c ∈ s := by
  unfold pyStrip at h
  rw [List.mem_reverse] at h
  have h2 := (List.dropWhile_sublist
    (l := (s.dropWhile isSpaceChar).reverse) isSpaceChar).subset h
  rw [List.mem_reverse] at h2
  exact (List.dropWhile_sublist (l := s) isSpaceChar).subset h2

lemma pyLower_pyUpper_ascii {s : PyStr} (h : ∀ c ∈ s, c < 128) :
    pyLower (pyUpper s) = pyLower s := by
  unfold pyLower pyUpper
  rw [List.map_map]
  exact List.map_congr_left (fun a ha => ascii_pyLowerChar_pyUpperChar (h a ha))

lemma pyLower_idem (s : PyStr) : pyLower (pyLower s) = pyLower s := by
  unfold pyLower
  rw [List.map_map]
  exact List.map_congr_left (fun a _ => pyLowerChar_idem a)

lemma alias_values_fixed :
    ∀ kv ∈ SYMBOL_ALIASES, normalize_symbol kv.2 = kv.2 := by decide

/-- Idempotence of `normalize_symbol` on ASCII input, shared by several
claims. It fails on general Unicode input (see the `"bıtcoin"`
counterexamples below), because `str.upper` can map a non-ASCII letter onto
an ASCII one whose lowercase form re-enters the alias table. -/
lemma normalize_symbol_idem_ascii (s : PyStr) (hs : ∀ c ∈ s, c < 128) :
    normalize_symbol (normalize_symbol s) = normalize_symbol s := by
  have ht_ascii : ∀ c ∈ pyLower (pyStrip s), c < 128 := by
    intro c hc
    obtain ⟨a, ha, rfl⟩ := List.mem_map.mp hc
    exact ascii_pyLowerChar (hs a (mem_pyStrip ha))
  cases h : dictGet SYMBOL_ALIASES (pyLower (pyStrip s)) with
  | some v =>
    have hns : normalize_symbol s = v := by
      simp only [normalize_symbol]
      rw [h]
    rw [hns]
    cases hfind : SYMBOL_ALIASES.find?
        (fun kv => decide (kv.1 = pyLower (pyStrip s))) with
    | none =>
      rw [dictGet, hfind] at h
      simp at h
    | some kv =>
      rw [dictGet, hfind] at h
      simp only [Option.map_some'] at h
      have hmem := List.mem_of_find?_eq_some hfind
      have hfx := alias_values_fixed kv hmem
      rw [Option.some_inj] at h
      rw [h] at hfx
      exact hfx
  | none =>
    have hns : normalize_symbol s = pyUpper (pyLower (pyStrip s)) := by
      simp only [normalize_symbol]
      rw [h]
    rw [hns]
    have hfix : pyStrip (pyLower (pyStrip s)) = pyLower (pyStrip s) := by
      rw [pyStrip_pyLower, pyStrip_idem]
    have ht : pyLower (pyStrip (pyUpper (pyLower (pyStrip s)))) =
        pyLower (pyStrip s) := by
      rw [pyStrip_pyUpper, hfix, pyLower_pyUpper_ascii ht_ascii, pyLower_idem]
    simp only [normalize_symbol]
    rw [ht, h]

/-! Helper lemmas about the dictionary model. -/

lemma comp_ite_key {V : Type} (k : PyStr) (v : V) :
    ((fun kv : PyStr × V => decide (kv.1 = k)) ∘
      (fun kv => if kv.1 = k then (k, v) else kv)) =
    fun kv : PyStr × V => decide (kv.1 = k) := by
  funext kv
  by_cases h : kv.1 = k
  · simp [h]
  · simp [h]

lemma dictGet_dictInsert {V : Type} (m : List (PyStr × V)) (k : PyStr) (v : V) :
    dictGet (dictInsert m k v) k = some v := by
  unfold dictInsert
  by_cases hany : m.any (fun kv => decide (kv.1 = k)) = true
  · rw [if_pos hany]
    unfold dictGet
    rw [List.find?_map, comp_ite_key]
    obtain ⟨kv1, hfind⟩ : ∃ kv1,
        m.find? (fun kv => decide (kv.1 = k)) = some kv1 := by
      obtain ⟨kv0, hkv0mem, hkv0⟩ := List.any_eq_true.mp hany
      exact Option.isSome_iff_exists.mp
        (List.find?_isSome.mpr ⟨kv0, hkv0mem, hkv0⟩)
    rw [hfind]
    have hp := List.find?_some hfind
    rw [decide_eq_true_eq] at hp
    simp [hp]
  · rw [if_neg hany]
    unfold dictGet
    rw [List.find?_append]
    have h1 : m.find? (fun kv => decide (kv.1 = k)) = none := by
      rw [List.find?_eq_none]
      intro x hx hpx
      exact hany (List.any_eq_true.mpr ⟨x, hx, hpx⟩)
    rw [h1]
    simp [List.find?_cons]

lemma dictInsert_keys_nodup {V : Type} (m : List (PyStr × V)) (k : PyStr) (v : V)
    (h : (m.map Prod.fst).Nodup) : ((dictInsert m k v).map Prod.fst).Nodup := by
  unfold dictInsert
  by_cases hany : m.any (fun kv => decide (kv.1 = k)) = true
  · rw [if_pos hany, List.map_map]
    have hfst : (Prod.fst ∘ fun kv : PyStr × V =>
        if kv.1 = k then (k, v) else kv) = Prod.fst := by
      funext kv
      by_cases hk : kv.1 = k
      · simp [hk]
      · simp [hk]
    rw [hfst]
    exact h
  · rw [if_neg hany, List.map_append]
    refine List.Nodup.append h (List.nodup_singleton k) ?_
    intro a ha hb
    rw [List.map_cons, List.map_nil, List.mem_singleton] at hb
    subst hb
    obtain ⟨kv, hkv, hfst⟩ := List.mem_map.mp ha
    exact absurd (List.any_eq_true.mpr ⟨kv, hkv, decide_eq_true hfst⟩) hany

lemma countP_key_eq_one {V : Type} (m : List (PyStr × V)) (k : PyStr)
    (h : (m.map Prod.fst).Nodup)
    (hmem : m.any (fun kv => decide (kv.1 = k)) = true) :
    m.countP (fun kv => decide (kv.1 = k)) = 1 := by
  induction m with
  | nil => simp at hmem
  | cons c t ih =>
    rw [List.map_cons, List.nodup_cons] at h
    rw [List.countP_cons]
    by_cases hc : c.1 = k
    · have ht0 : t.countP (fun kv => decide (kv.1 = k)) = 0 := by
        rw [List.countP_eq_zero]
        intro a ha hpa
        rw [decide_eq_true_eq] at hpa
        have hk : k ∈ t.map Prod.fst := hpa ▸ List.mem_map.mpr ⟨a, ha, rfl⟩
        exact h.1 (hc ▸ hk)
      rw [ht0, if_pos (decide_eq_true hc)]
    · rw [if_neg (by simp [hc])]
      rw [List.any_cons, decide_eq_false hc, Bool.false_or] at hmem
      simpa using ih h.2 hmem

lemma dictInsert_countP_key {V : Type} (m : List (PyStr × V)) (k : PyStr) (v : V)
    (h : (m.map Prod.fst).Nodup) :
    (dictInsert m k v).countP (fun kv => decide (kv.1 = k)) = 1 := by
  unfold dictInsert
  by_cases hany : m.any (fun kv => decide (kv.1 = k)) = true
  · rw [if_pos hany, List.countP_map, comp_ite_key]
    exact countP_key_eq_one m k h hany
  · rw [if_neg hany, List.countP_append]
    have h0 : m.countP (fun kv => decide (kv.1 = k)) = 0 := by
      rw [List.countP_eq_zero]
      intro a ha hpa
      exact hany (List.any_eq_true.mpr ⟨a, ha, hpa⟩)
    rw [h0]
    simp

/-! Helper lemma about the backward history scan. -/

lemma reverse_find?_last_match {α : Type} (p : α → Bool) (pre post : List α)
    (r : α) (hr : p r = true) (hpost : ∀ x ∈ post, p x = false) :
    (pre ++ r :: post).reverse.find? p = some r := by
  rw [List.reverse_append, List.reverse_cons, List.find?_append,
    List.find?_append]
  have h1 : post.reverse.find? p = none :=
    List.find?_eq_none.mpr (fun x hx => by
      simp [hpost x (List.mem_reverse.mp hx)])
  rw [h1]
  simp [List.find?_cons, hr]

/-! Helper lemmas about portfolio persistence. -/

lemma load_save_portfolio (hs : List Holding)
    (h : ∀ x ∈ hs, normalize_symbol x.symbol = x.symbol) :
    load_portfolio (save_portfolio hs) = hs := by
  unfold load_portfolio save_portfolio
  rw [List.map_map]
  have h2 : ∀ x ∈ hs, ((fun row : RawRow =>
      (⟨normalize_symbol row.symbol, safe_float row.quantity 0,
        safe_float row.buy_price 0⟩ : Holding)) ∘
      (fun h : Holding =>
        (⟨h.symbol, Cell.numeric h.quantity,
          Cell.numeric h.buy_price⟩ : RawRow))) x = id x := by
    intro x hx
    simp only [Function.comp_apply, safe_float, id_eq]
    rw [h x hx]
  rw [List.map_congr_left h2, List.map_id]

lemma load_portfolio_symbols_fixed (file : List RawRow)
    (hfile : ∀ r ∈ file,
      normalize_symbol (normalize_symbol r.symbol) = normalize_symbol r.symbol) :
    ∀ h ∈ load_portfolio file, normalize_symbol h.symbol = h.symbol := by
  intro h hmem
  obtain ⟨row, hrow, hEq⟩ := List.mem_map.mp hmem
  rw [← hEq]
  exact hfile row hrow

/-- C6 counterexample: `normalize_symbol` is not idempotent on arbitrary
Unicode input. `str.upper` maps U+0131 (dotless ı) to the ASCII letter `I`,
so `normalize("bıtcoin") = "BITCOIN"`, while `"BITCOIN"` lowercases to the
alias key `"bitcoin"` and re-normalizes to `"BTC-USD"`. -/
theorem normalize_not_idempotent_cex :
    normalize_symbol (str "bıtcoin") = str "BITCOIN"
    ∧ normalize_symbol (str "BITCOIN") = str "BTC-USD"
    ∧ normalize_symbol (normalize_symbol (str "bıtcoin"))
        ≠ normalize_symbol (str "bıtcoin") :=
  ⟨by decide, by decide, by decide⟩

/-- C6 as amended: `normalize_symbol` is a total pure function on the string
model (being a Lean function it is defined on every input with no failure
mode); it is idempotent on every ASCII string — though not on arbitrary
Unicode input — and it is case- and whitespace-insensitive on aliases:
`normalize(" btc ") = normalize("BTC") = "BTC-USD"`. -/
theorem normalize_total_idempotent :
    (∀ s : PyStr, (∀ c ∈ s, c < 128) →
      normalize_symbol (normalize_symbol s) = normalize_symbol s)
    ∧ normalize_symbol (str " btc ") = str "BTC-USD"
    ∧ normalize_symbol (str "BTC") = str "BTC-USD" :=
  ⟨normalize_symbol_idem_ascii, by decide, by decide⟩

/-- Witness for C6's amended statement at the ASCII input `" btc "`. -/
theorem normalize_total_idempotent_witness :
    (∀ c ∈ str " btc ", c < 128)
    ∧ normalize_symbol (normalize_symbol (str " btc "))
        = normalize_symbol (str " btc ") :=
  ⟨by decide, normalize_total_idempotent.1 (str " btc ") (by decide)⟩

/-- C8: the quote cache is last-write-wins: after two sequential `_save_cache`
calls for the same symbol, `_load_cache` returns the second quote's fields
(tagged `source="cache"`), and each write fully overwrites the prior record,
so a cache with unique keys keeps exactly one record for that symbol. -/
theorem quote_cache_last_write_wins (cache : List (PyStr × CacheEntry))
    (sym : PyStr) (q1 q2 : Quote) :
    load_cache (save_cache (save_cache cache sym q1) sym q2) sym =
      some ⟨q2.symbol, q2.price, q2.change, q2.change_percent,
        q2.last_refreshed, str "cache", 0, 0⟩
    ∧ ((cache.map Prod.fst).Nodup →
        (save_cache (save_cache cache sym q1) sym q2).countP
            (fun kv => decide (kv.1 = sym)) = 1
        ∧ ((save_cache (save_cache cache sym q1) sym q2).map Prod.fst).Nodup) := by
  constructor
  · unfold load_cache save_cache
    rw [dictGet_dictInsert]
    rfl
  · intro h
    have h1 := dictInsert_keys_nodup cache sym (entryOf q1) h
    exact ⟨dictInsert_countP_key _ sym (entryOf q2) h1,
      dictInsert_keys_nodup _ sym (entryOf q2) h1⟩

/-- Witness for C8 at a concrete cache and two concrete quotes. -/
theorem quote_cache_last_write_wins_witness :
    load_cache (save_cache (save_cache []
        (str "BTC-USD") ⟨str "BTC-USD", 100, 0, 0, 1, str "yfinance", 0, 0⟩)
        (str "BTC-USD") ⟨str "BTC-USD", 110, 0, 0, 2, str "yfinance", 0, 0⟩)
      (str "BTC-USD") =
      some ⟨str "BTC-USD", 110, 0, 0, 2, str "cache", 0, 0⟩
    ∧ (save_cache (save_cache []
        (str "BTC-USD") ⟨str "BTC-USD", 100, 0, 0, 1, str "yfinance", 0, 0⟩)
        (str "BTC-USD") ⟨str "BTC-USD", 110, 0, 0, 2, str "yfinance", 0, 0⟩).countP
          (fun kv => decide (kv.1 = str "BTC-USD")) = 1 := by
  have h := quote_cache_last_write_wins []
    (str "BTC-USD") ⟨str "BTC-USD", 100, 0, 0, 1, str "yfinance", 0, 0⟩
    ⟨str "BTC-USD", 110, 0, 0, 2, str "yfinance", 0, 0⟩
  exact ⟨h.1, (h.2 (by simp)).1⟩

/-- C9 counterexample: for the non-ASCII symbol `"bıtcoin"`, `add_holding`
persists the row under `"BITCOIN"` (its normalized form), but
`remove_holding` re-normalizes the reloaded store, turning that row into
`"BTC-USD"`, which survives the `!= "BITCOIN"` filter: the added row is not
deleted and the add-then-remove pair leaves one row, not zero, in an
otherwise empty store. -/
theorem add_remove_holding_unicode_cex :
    add_holding ([] : List RawRow) (str "bıtcoin") 2 100
      = [⟨str "BITCOIN", Cell.numeric 2, Cell.numeric 100⟩]
    ∧ remove_holding (add_holding ([] : List RawRow) (str "bıtcoin") 2 100)
        (str "bıtcoin")
      = [⟨str "BTC-USD", Cell.numeric 2, Cell.numeric 100⟩]
    ∧ (remove_holding (add_holding ([] : List RawRow) (str "bıtcoin") 2 100)
        (str "bıtcoin")).length ≠ 0 :=
  ⟨by decide, by decide, by decide⟩

/-- C9 as amended: for every portfolio state and symbol made of ASCII
characters (so that normalized symbols are fixed points of `normalize`),
`remove_holding` deletes all holdings whose symbol matches the normalized
input symbol and persists the result, so `add_holding` followed by
`remove_holding` for the same symbol leaves zero rows for that symbol while
every row for a distinct symbol is unchanged in content and relative order.
For non-ASCII symbols this fails (see the counterexample): remove's reload
re-normalizes stored symbols, and a row can escape the filter. -/
theorem add_remove_holding_clears_symbol (file : List RawRow) (symbol : PyStr)
    (quantity buy_price : ℚ)
    (hsym : ∀ c ∈ symbol, c < 128)
    (hfile : ∀ r ∈ file, ∀ c ∈ r.symbol, c < 128) :
    load_portfolio (remove_holding (add_holding file symbol quantity buy_price)
        symbol)
      = (load_portfolio file).filter
          (fun h => decide (h.symbol ≠ normalize_symbol symbol))
    ∧ ∀ row ∈ remove_holding (add_holding file symbol quantity buy_price) symbol,
        row.symbol ≠ normalize_symbol symbol := by
  have hfileFix : ∀ r ∈ file,
      normalize_symbol (normalize_symbol r.symbol) = normalize_symbol r.symbol :=
    fun r hr => normalize_symbol_idem_ascii r.symbol (hfile r hr)
  have hload : load_portfolio (add_holding file symbol quantity buy_price)
      = load_portfolio file ++ [⟨normalize_symbol symbol, quantity, buy_price⟩] := by
    unfold add_holding
    refine load_save_portfolio _ ?_
    intro x hx
    rcases List.mem_append.mp hx with hx1 | hx2
    · exact load_portfolio_symbols_fixed file hfileFix x hx1
    · rw [List.mem_singleton] at hx2
      subst hx2
      exact normalize_symbol_idem_ascii symbol hsym
  constructor
  · have hsubfix : ∀ x ∈ (load_portfolio
        (add_holding file symbol quantity buy_price)).filter
        (fun h => decide (h.symbol ≠ normalize_symbol symbol)),
        normalize_symbol x.symbol = x.symbol := by
      intro x hx
      have hx1 := (List.mem_filter.mp hx).1
      rw [hload] at hx1
      rcases List.mem_append.mp hx1 with hx2 | hx2
      · exact load_portfolio_symbols_fixed file hfileFix x hx2
      · rw [List.mem_singleton] at hx2
        subst hx2
        exact normalize_symbol_idem_ascii symbol hsym
    have h1 : load_portfolio (remove_holding
        (add_holding file symbol quantity buy_price) symbol)
        = (load_portfolio (add_holding file symbol quantity buy_price)).filter
            (fun h => decide (h.symbol ≠ normalize_symbol symbol)) :=
      load_save_portfolio _ hsubfix
    rw [h1, hload, List.filter_append]
    have h2 : ([(⟨normalize_symbol symbol, quantity, buy_price⟩ : Holding)].filter
        (fun h => decide (h.symbol ≠ normalize_symbol symbol))) = [] := by
      simp
    rw [h2, List.append_nil]
  · intro row hrow
    unfold remove_holding at hrow
    obtain ⟨x, hxmem, hxeq⟩ := List.mem_map.mp hrow
    rw [← hxeq]
    have hx2 := (List.mem_filter.mp hxmem).2
    rw [decide_eq_true_eq] at hx2
    exact hx2

/-- Witness for C9's amended statement at a concrete ASCII one-row store. -/
theorem add_remove_holding_clears_symbol_witness :
    load_portfolio (remove_holding (add_holding
        [⟨str "msft", Cell.numeric 1, Cell.numeric 10⟩] (str "aapl") 2 100)
        (str "aapl"))
      = [⟨str "MSFT", 1, 10⟩]
    ∧ (⟨str "MSFT", Cell.numeric 1, Cell.numeric 10⟩ : RawRow).symbol
        ≠ normalize_symbol (str "aapl") := by
  have h := add_remove_holding_clears_symbol
    [⟨str "msft", Cell.numeric 1, Cell.numeric 10⟩] (str "aapl") 2 100
    (by decide) (by decide)
  refine ⟨?_, h.2 ⟨str "MSFT", Cell.numeric 1, Cell.numeric 10⟩ (by decide)⟩
  rw [h.1]
  decide

/-- C10 counterexample: a loaded symbol need not be a fixed point of
`normalize_symbol`. The raw symbol `"bıtcoin"` loads as `"BITCOIN"` (its
normalized form via `str.upper` on U+0131), and normalizing again yields the
alias target `"BTC-USD" ≠ "BITCOIN"`. -/
theorem load_portfolio_unicode_cex :
    load_portfolio [⟨str "bıtcoin", Cell.numeric 2, Cell.numeric 100⟩]
      = [⟨str "BITCOIN", 2, 100⟩]
    ∧ normalize_symbol (str "BITCOIN") ≠ str "BITCOIN" :=
  ⟨by decide, by decide⟩

/-- C10 as amended: loading the portfolio store never fails (one holding per
file row); every loaded holding's symbol is `normalize_symbol` of the raw
cell, and it is a fixed point of `normalize_symbol` (canonical form)
whenever the stored symbols are ASCII — though not for arbitrary Unicode
rows (see the counterexample); malformed numeric cells are coerced to `0.0`
by the safe parser. -/
theorem load_portfolio_normalized_invariant (file : List RawRow) :
    (load_portfolio file).length = file.length
    ∧ ((∀ r ∈ file, ∀ c ∈ r.symbol, c < 128) →
        ∀ h ∈ load_portfolio file, normalize_symbol h.symbol = h.symbol)
    ∧ ∀ i (hi : i < file.length) (hi2 : i < (load_portfolio file).length),
        ((file.get ⟨i, hi⟩).quantity = Cell.malformed →
          ((load_portfolio file).get ⟨i, hi2⟩).quantity = 0)
        ∧ ((file.get ⟨i, hi⟩).buy_price = Cell.malformed →
          ((load_portfolio file).get ⟨i, hi2⟩).buy_price = 0) := by
  refine ⟨by simp [load_portfolio], ?_, ?_⟩
  · intro hascii
    exact load_portfolio_symbols_fixed file
      (fun r hr => normalize_symbol_idem_ascii r.symbol (hascii r hr))
  intro i hi hi2
  have hget : (load_portfolio file).get ⟨i, hi2⟩ =
      ⟨normalize_symbol (file.get ⟨i, hi⟩).symbol,
        safe_float (file.get ⟨i, hi⟩).quantity 0,
        safe_float (file.get ⟨i, hi⟩).buy_price 0⟩ := by
    simp [load_portfolio, List.get_eq_getElem]
  constructor
  · intro hmal
    rw [List.get_eq_getElem] at hmal
    rw [hget]
    simp [hmal, safe_float]
  · intro hmal
    rw [List.get_eq_getElem] at hmal
    rw [hget]
    simp [hmal, safe_float]

/-- Witness for C10's amended statement at a concrete ASCII store with an
alias symbol and a malformed quantity cell. -/
theorem load_portfolio_normalized_invariant_witness :
    normalize_symbol ((⟨str "BTC-USD", (0 : ℚ), (5 : ℚ)⟩ : Holding).symbol)
      = (⟨str "BTC-USD", (0 : ℚ), (5 : ℚ)⟩ : Holding).symbol
    ∧ ((load_portfolio [⟨str " btc ", Cell.malformed, Cell.numeric 5⟩]).get
        ⟨0, by decide⟩).quantity = 0 := by
  have h := load_portfolio_normalized_invariant
    [⟨str " btc ", Cell.malformed, Cell.numeric 5⟩]
  exact ⟨h.2.1 (by decide) ⟨str "BTC-USD", 0, 5⟩ (by decide),
    (h.2.2 0 (by decide) (by decide)).1 (by decide)⟩

/-- C1: when the live attempt of `get_quote` throws, the fallbacks are
consulted in order: a cache entry under the normalized symbol is returned
tagged `source="cache"`; otherwise the matching history row of greatest
insertion index (first match scanning from the newest row backward) is
returned tagged `source="offline-history"`; otherwise `get_quote` fails
carrying the requested symbol and the underlying cause. The fallback path
leaves the durable state unchanged. -/
theorem get_quote_offline_fallback_chain {E : Type} (feed : Feed E)
    (st : ClientState) (symbol : PyStr) (e : E)
    (hlive : livePrice feed = .error e) :
    (∀ entry, dictGet st.cache (normalize_symbol symbol) = some entry →
      (get_quote feed st symbol).1 =
        .ok ⟨entry.symbol, entry.price, entry.change, entry.change_percent,
          entry.last_refreshed, str "cache", 0, 0⟩)
    ∧ (dictGet st.cache (normalize_symbol symbol) = none →
        ∀ pre post row, st.history = pre ++ row :: post →
          row.symbol = normalize_symbol symbol →
          (∀ x ∈ post, x.symbol ≠ normalize_symbol symbol) →
          (get_quote feed st symbol).1 = .ok (histQuote row)
          ∧ (histQuote row).source = str "offline-history")
    ∧ (dictGet st.cache (normalize_symbol symbol) = none →
        (∀ x ∈ st.history, x.symbol ≠ normalize_symbol symbol) →
        (get_quote feed st symbol).1 = .error ⟨symbol, e⟩)
    ∧ (get_quote feed st symbol).2 = st := by
  have hgq : get_quote feed st symbol = (runFallback st symbol e, st) := by
    unfold get_quote
    rw [hlive]
  refine ⟨?_, ?_, ?_, by rw [hgq]⟩
  · intro entry hentry
    rw [hgq]
    unfold runFallback load_cache
    rw [hentry]
    rfl
  · intro hnone pre post row hhist hsym hpost
    refine ⟨?_, rfl⟩
    rw [hgq]
    unfold runFallback load_cache findHistory
    rw [hnone, hhist,
      reverse_find?_last_match _ pre post row (decide_eq_true hsym)
        (fun x hx => decide_eq_false (hpost x hx))]
    rfl
  · intro hnone hall
    rw [hgq]
    unfold runFallback load_cache findHistory
    have hfind : st.history.reverse.find?
        (fun r => decide (r.symbol = normalize_symbol symbol)) = none := by
      rw [List.find?_eq_none]
      intro x hx hpx
      rw [decide_eq_true_eq] at hpx
      exact hall x (List.mem_reverse.mp hx) hpx
    rw [hnone, hfind]
    rfl

/-- Witness for C1: a cache hit for `"btc"` while the live attempt throws,
and the terminal failure with empty cache and history. -/
theorem get_quote_offline_fallback_chain_witness :
    (get_quote (E := Unit) ⟨.error (), .ok none, 0⟩
        ⟨[(str "BTC-USD", ⟨str "BTC-USD", 100, 1, 2, 3, str "yfinance"⟩)], []⟩
        (str "btc")).1 =
      .ok ⟨str "BTC-USD", 100, 1, 2, 3, str "cache", 0, 0⟩
    ∧ (get_quote (E := Unit) ⟨.error (), .ok none, 0⟩ ⟨[], []⟩ (str "btc")).1 =
      .error ⟨str "btc", ()⟩ := by
  have h1 := get_quote_offline_fallback_chain (E := Unit) ⟨.error (), .ok none, 0⟩
    ⟨[(str "BTC-USD", ⟨str "BTC-USD", 100, 1, 2, 3, str "yfinance"⟩)], []⟩
    (str "btc") () rfl
  have h2 := get_quote_offline_fallback_chain (E := Unit) ⟨.error (), .ok none, 0⟩
    ⟨[], []⟩ (str "btc") () rfl
  exact ⟨h1.1 ⟨str "BTC-USD", 100, 1, 2, 3, str "yfinance"⟩ (by decide),
    h2.2.2.1 (by decide) (by simp)⟩

/-- C2 counterexample: with a live price of exactly `0.0` and an empty daily
bar, `get_quote` does not proceed to the fallback chain; it returns a
live-sourced Quote whose price is exactly `0.0`. -/
theorem get_quote_zero_price_cex :
    (get_quote (E := Unit) ⟨.ok (some 0), .ok none, 7⟩ ⟨[], []⟩ (str "AAPL")).1
      = .ok ⟨str "AAPL", 0, 0, 0, 7, str "yfinance", 0, 0⟩
    ∧ (⟨str "AAPL", (0 : ℚ), 0, 0, 7, str "yfinance", 0, 0⟩ : Quote).price = 0
    ∧ (⟨str "AAPL", (0 : ℚ), 0, 0, 7, str "yfinance", 0, 0⟩ : Quote).source
        = str "yfinance" :=
  ⟨rfl, rfl, rfl⟩

/-- C2 as amended: a missing or exactly-zero live price escalates to the
daily-bar retry within the live attempt; if the retry throws, `get_quote`
proceeds to the cache/history fallback chain with unchanged state; but if the
retry yields no bar, `get_quote` returns a live Quote with price `0.0`, and
if it yields a bar it uses that close unconditionally. -/
theorem get_quote_zero_price_behavior {E : Type} (feed : Feed E)
    (st : ClientState) (symbol : PyStr)
    (h0 : feed.lastPrice = .ok none ∨ feed.lastPrice = .ok (some 0)) :
    (∀ e, feed.dailyBar = .error e →
      get_quote feed st symbol = (runFallback st symbol e, st))
    ∧ (feed.dailyBar = .ok none →
      (get_quote feed st symbol).1 =
        .ok ⟨normalize_symbol symbol, 0, 0, 0, feed.now, str "yfinance", 0, 0⟩)
    ∧ (∀ c, feed.dailyBar = .ok (some c) →
      (get_quote feed st symbol).1 =
        .ok ⟨normalize_symbol symbol, c, 0, 0, feed.now, str "yfinance", 0, 0⟩) := by
  refine ⟨?_, ?_, ?_⟩
  · intro e hd
    unfold get_quote
    have hlp : livePrice feed = .error e := by
      rcases h0 with h0 | h0 <;> simp only [livePrice, h0, hd] <;> rfl
    rw [hlp]
  · intro hd
    have hlp : livePrice feed = .ok 0 := by
      rcases h0 with h0 | h0 <;> simp only [livePrice, h0, hd] <;> rfl
    unfold get_quote
    rw [hlp]
  · intro c hd
    have hlp : livePrice feed = .ok c := by
      rcases h0 with h0 | h0 <;> simp only [livePrice, h0, hd] <;> rfl
    unfold get_quote
    rw [hlp]

/-- Witness for C2's amended statement at three concrete feeds. -/
theorem get_quote_zero_price_behavior_witness :
    get_quote (E := Unit) ⟨.ok (some 0), .error (), 5⟩ ⟨[], []⟩ (str "btc")
      = (runFallback ⟨[], []⟩ (str "btc") (), ⟨[], []⟩)
    ∧ (get_quote (E := Unit) ⟨.ok none, .ok none, 5⟩ ⟨[], []⟩ (str "btc")).1
      = .ok ⟨str "BTC-USD", 0, 0, 0, 5, str "yfinance", 0, 0⟩
    ∧ (get_quote (E := Unit) ⟨.ok none, .ok (some 150), 5⟩ ⟨[], []⟩
        (str "btc")).1
      = .ok ⟨str "BTC-USD", 150, 0, 0, 5, str "yfinance", 0, 0⟩ := by
  have h1 := get_quote_zero_price_behavior (E := Unit)
    ⟨.ok (some 0), .error (), 5⟩ ⟨[], []⟩ (str "btc") (Or.inr rfl)
  have h2 := get_quote_zero_price_behavior (E := Unit)
    ⟨.ok none, .ok none, 5⟩ ⟨[], []⟩ (str "btc") (Or.inl rfl)
  have h3 := get_quote_zero_price_behavior (E := Unit)
    ⟨.ok none, .ok (some 150), 5⟩ ⟨[], []⟩ (str "btc") (Or.inl rfl)
  exact ⟨h1.1 () rfl, h2.2.1 rfl, h3.2.2 150 rfl⟩

/-- C3 counterexample: a successful live fetch returns a Quote tagged with
the literal source string `"yfinance"`, not `"live"`. -/
theorem get_quote_live_tag_cex :
    (get_quote (E := Unit) ⟨.ok (some 150), .ok none, 7⟩ ⟨[], []⟩
        (str "AAPL")).1
      = .ok ⟨str "AAPL", 150, 0, 0, 7, str "yfinance", 0, 0⟩
    ∧ str "yfinance" ≠ str "live" :=
  ⟨rfl, by decide⟩

/-- C3 as amended: on a live fetch that succeeds with price `p`, `get_quote`
returns a Quote with `change=0.0`, `change_percent=0.0` and
`source="yfinance"` (the live tag), overwrites the cache entry for the
normalized symbol with that Quote's fields (so a unique-key cache holds
exactly one record for it), and appends exactly one row to the history log,
for every prior state. -/
theorem get_quote_live_success_persists {E : Type} (feed : Feed E)
    (st : ClientState) (symbol : PyStr) (price : ℚ)
    (hlive : livePrice feed = .ok price) :
    (get_quote feed st symbol).1 =
      .ok ⟨normalize_symbol symbol, price, 0, 0, feed.now, str "yfinance", 0, 0⟩
    ∧ (get_quote feed st symbol).2.cache =
        save_cache st.cache (normalize_symbol symbol)
          ⟨normalize_symbol symbol, price, 0, 0, feed.now, str "yfinance", 0, 0⟩
    ∧ dictGet (get_quote feed st symbol).2.cache (normalize_symbol symbol) =
        some (entryOf ⟨normalize_symbol symbol, price, 0, 0, feed.now,
          str "yfinance", 0, 0⟩)
    ∧ (get_quote feed st symbol).2.history =
        st.history ++ [histRowOf ⟨normalize_symbol symbol, price, 0, 0,
          feed.now, str "yfinance", 0, 0⟩]
    ∧ ((st.cache.map Prod.fst).Nodup →
        (get_quote feed st symbol).2.cache.countP
            (fun kv => decide (kv.1 = normalize_symbol symbol)) = 1
        ∧ ((get_quote feed st symbol).2.cache.map Prod.fst).Nodup) := by
  have hgq : get_quote feed st symbol =
      (.ok ⟨normalize_symbol symbol, price, 0, 0, feed.now, str "yfinance", 0, 0⟩,
        ⟨save_cache st.cache (normalize_symbol symbol)
          ⟨normalize_symbol symbol, price, 0, 0, feed.now, str "yfinance", 0, 0⟩,
        save_history st.history
          ⟨normalize_symbol symbol, price, 0, 0, feed.now, str "yfinance", 0, 0⟩⟩) := by
    unfold get_quote
    rw [hlive]
  refine ⟨by rw [hgq], by rw [hgq], ?_, by rw [hgq]; rfl, ?_⟩
  · rw [hgq]
    exact dictGet_dictInsert _ _ _
  · intro h
    rw [hgq]
    exact ⟨dictInsert_countP_key _ _ _ h, dictInsert_keys_nodup _ _ _ h⟩

/-- Witness for C3's amended statement at a concrete feed and empty state. -/
theorem get_quote_live_success_persists_witness :
    (get_quote (E := Unit) ⟨.ok (some 150), .ok none, 7⟩ ⟨[], []⟩
        (str "aapl")).1
      = .ok ⟨str "AAPL", 150, 0, 0, 7, str "yfinance", 0, 0⟩
    ∧ (get_quote (E := Unit) ⟨.ok (some 150), .ok none, 7⟩ ⟨[], []⟩
        (str "aapl")).2.history
      = [histRowOf ⟨str "AAPL", 150, 0, 0, 7, str "yfinance", 0, 0⟩]
    ∧ (get_quote (E := Unit) ⟨.ok (some 150), .ok none, 7⟩ ⟨[], []⟩
        (str "aapl")).2.cache.countP
          (fun kv => decide (kv.1 = str "AAPL")) = 1 := by
  have h := get_quote_live_success_persists (E := Unit)
    ⟨.ok (some 150), .ok none, 7⟩ ⟨[], []⟩ (str "aapl") 150 rfl
  exact ⟨h.1, h.2.2.2.1, (h.2.2.2.2 (by simp)).1⟩

lemma enrich_one_base (g : PyStr → Option Quote) (h : Holding) :
    (enrich_one g h).symbol = h.symbol
    ∧ (enrich_one g h).quantity = h.quantity
    ∧ (enrich_one g h).buy_price = h.buy_price := by
  cases hf : g h.symbol <;> simp [enrich_one, hf]

lemma enrich_one_fail (g : PyStr → Option Quote) (h : Holding)
    (hf : g h.symbol = none) :
    (enrich_one g h).current_price = none
    ∧ (enrich_one g h).value = none
    ∧ (enrich_one g h).pl = 0
    ∧ (enrich_one g h).pl_percent = 0
    ∧ (enrich_one g h).source = str "local-cache" := by
  simp [enrich_one, hf]

lemma enrich_one_congr (g1 g2 : PyStr → Option Quote) (h : Holding)
    (hagree : g1 h.symbol = g2 h.symbol) :
    enrich_one g1 h = enrich_one g2 h := by
  simp only [enrich_one]
  rw [hagree]

/-- C4: `enrich_portfolio` returns one row per input holding, in input
order; row `i` is determined by holding `i` and the quote oracle's answer at
that holding's symbol alone (one call boundary per holding), and when that
call fails the row carries `current_price=None`, `value=None`, `pl=0.0`,
`pl_percent=0.0`, `source="local-cache"`, with no effect on other rows. -/
theorem enrich_partial_failure_isolation (fetch : PyStr → Option Quote)
    (file : List RawRow) :
    (enrich_portfolio fetch file).length = file.length
    ∧ ∀ i (hi : i < (load_portfolio file).length)
        (hi2 : i < (enrich_portfolio fetch file).length),
        ((enrich_portfolio fetch file).get ⟨i, hi2⟩
            = enrich_one fetch ((load_portfolio file).get ⟨i, hi⟩))
        ∧ ((enrich_portfolio fetch file).get ⟨i, hi2⟩).symbol
            = ((load_portfolio file).get ⟨i, hi⟩).symbol
        ∧ ((enrich_portfolio fetch file).get ⟨i, hi2⟩).quantity
            = ((load_portfolio file).get ⟨i, hi⟩).quantity
        ∧ ((enrich_portfolio fetch file).get ⟨i, hi2⟩).buy_price
            = ((load_portfolio file).get ⟨i, hi⟩).buy_price
        ∧ (fetch ((load_portfolio file).get ⟨i, hi⟩).symbol = none →
            ((enrich_portfolio fetch file).get ⟨i, hi2⟩).current_price = none
            ∧ ((enrich_portfolio fetch file).get ⟨i, hi2⟩).value = none
            ∧ ((enrich_portfolio fetch file).get ⟨i, hi2⟩).pl = 0
            ∧ ((enrich_portfolio fetch file).get ⟨i, hi2⟩).pl_percent = 0
            ∧ ((enrich_portfolio fetch file).get ⟨i, hi2⟩).source
                = str "local-cache")
        ∧ ∀ (fetch2 : PyStr → Option Quote)
            (hi3 : i < (enrich_portfolio fetch2 file).length),
            fetch2 ((load_portfolio file).get ⟨i, hi⟩).symbol
              = fetch ((load_portfolio file).get ⟨i, hi⟩).symbol →
            (enrich_portfolio fetch2 file).get ⟨i, hi3⟩
              = (enrich_portfolio fetch file).get ⟨i, hi2⟩ := by
  constructor
  · simp [enrich_portfolio, load_portfolio]
  · intro i hi hi2
    have hrow : ∀ (g : PyStr → Option Quote)
        (h3 : i < (enrich_portfolio g file).length),
        (enrich_portfolio g file).get ⟨i, h3⟩
          = enrich_one g ((load_portfolio file).get ⟨i, hi⟩) := by
      intro g h3
      simp [enrich_portfolio, List.get_eq_getElem]
    refine ⟨hrow fetch hi2, ?_, ?_, ?_, ?_, ?_⟩
    · rw [hrow fetch hi2]
      exact (enrich_one_base fetch _).1
    · rw [hrow fetch hi2]
      exact (enrich_one_base fetch _).2.1
    · rw [hrow fetch hi2]
      exact (enrich_one_base fetch _).2.2
    · intro hf
      rw [hrow fetch hi2]
      exact enrich_one_fail fetch _ hf
    · intro fetch2 hi3 hagree
      rw [hrow fetch hi2, hrow fetch2 hi3]
      exact enrich_one_congr fetch2 fetch _ hagree

/-- Witness for C4 at a two-row store where the first holding's fetch fails
and the second succeeds. -/
theorem enrich_partial_failure_isolation_witness :
    (enrich_portfolio (fun s => if s = str "MSFT"
        then some ⟨str "MSFT", 20, 0, 0, 1, str "yfinance", 0, 0⟩ else none)
      [⟨str "AAPL", Cell.numeric 2, Cell.numeric 100⟩,
        ⟨str "msft", Cell.numeric 1, Cell.numeric 10⟩]).length = 2
    ∧ ((enrich_portfolio (fun s => if s = str "MSFT"
        then some ⟨str "MSFT", 20, 0, 0, 1, str "yfinance", 0, 0⟩ else none)
      [⟨str "AAPL", Cell.numeric 2, Cell.numeric 100⟩,
        ⟨str "msft", Cell.numeric 1, Cell.numeric 10⟩]).get
          ⟨0, by decide⟩).current_price = none
    ∧ ((enrich_portfolio (fun s => if s = str "MSFT"
        then some ⟨str "MSFT", 20, 0, 0, 1, str "yfinance", 0, 0⟩ else none)
      [⟨str "AAPL", Cell.numeric 2, Cell.numeric 100⟩,
        ⟨str "msft", Cell.numeric 1, Cell.numeric 10⟩]).get
          ⟨0, by decide⟩).source = str "local-cache"
    ∧ ((enrich_portfolio (fun s => if s = str "MSFT"
        then some ⟨str "MSFT", 20, 0, 0, 1, str "yfinance", 0, 0⟩ else none)
      [⟨str "AAPL", Cell.numeric 2, Cell.numeric 100⟩,
        ⟨str "msft", Cell.numeric 1, Cell.numeric 10⟩]).get
          ⟨1, by decide⟩)
        = enrich_one (fun s => if s = str "MSFT"
            then some ⟨str "MSFT", 20, 0, 0, 1, str "yfinance", 0, 0⟩ else none)
          ⟨str "MSFT", 1, 10⟩ := by
  have h := enrich_partial_failure_isolation
    (fun s => if s = str "MSFT"
      then some ⟨str "MSFT", 20, 0, 0, 1, str "yfinance", 0, 0⟩ else none)
    [⟨str "AAPL", Cell.numeric 2, Cell.numeric 100⟩,
      ⟨str "msft", Cell.numeric 1, Cell.numeric 10⟩]
  have h0 := h.2 0 (by decide) (by decide)
  have hfail := h0.2.2.2.2.1 (by decide)
  exact ⟨h.1, hfail.1, hfail.2.2.2.2, (h.2 1 (by decide) (by decide)).1⟩

/-- C5: for a holding whose quote fetch succeeds, the valuation fields are
`total_spent = quantity*buy_price`, `value = quantity*price`,
`pl = value - total_spent`, `pl_percent = pl/total_spent*100` except that
`pl_percent = 0.0` when `total_spent = 0`. -/
theorem enrich_success_valuation (fetch : PyStr → Option Quote) (h : Holding)
    (q : Quote) (hq : fetch h.symbol = some q) :
    (enrich_one fetch h).total_spent = h.quantity * h.buy_price
    ∧ (enrich_one fetch h).current_price = some q.price
    ∧ (enrich_one fetch h).value = some (h.quantity * q.price)
    ∧ (enrich_one fetch h).pl =
        h.quantity * q.price - h.quantity * h.buy_price
    ∧ (h.quantity * h.buy_price ≠ 0 →
        (enrich_one fetch h).pl_percent =
          (h.quantity * q.price - h.quantity * h.buy_price) /
            (h.quantity * h.buy_price) * 100)
    ∧ (h.quantity * h.buy_price = 0 → (enrich_one fetch h).pl_percent = 0) := by
  have hrec : enrich_one fetch h =
      ⟨h.symbol, h.quantity, h.buy_price, h.quantity * h.buy_price,
        some q.price, some (h.quantity * q.price),
        h.quantity * q.price - h.quantity * h.buy_price,
        if h.quantity * h.buy_price ≠ 0 then
          (h.quantity * q.price - h.quantity * h.buy_price) /
            (h.quantity * h.buy_price) * 100
        else 0,
        currency_symbol h.symbol, q.source⟩ := by
    simp only [enrich_one, hq]
  rw [hrec]
  refine ⟨rfl, rfl, rfl, rfl, ?_, ?_⟩
  · intro hne
    exact if_pos hne
  · intro heq
    exact if_neg (not_not_intro heq)

/-- Witness for C5: the spec's worked examples — quantity 2, buy price 100,
live price 150 (so `total_spent=200`, `value=300`, `pl=100`,
`pl_percent=50`), and the zero-cost holding with `pl_percent=0`. -/
theorem enrich_success_valuation_witness :
    (enrich_one (fun s => if s = str "AAPL"
        then some ⟨str "AAPL", 150, 0, 0, 7, str "yfinance", 0, 0⟩ else none)
      ⟨str "AAPL", 2, 100⟩).total_spent = (2 : ℚ) * 100
    ∧ (enrich_one (fun s => if s = str "AAPL"
        then some ⟨str "AAPL", 150, 0, 0, 7, str "yfinance", 0, 0⟩ else none)
      ⟨str "AAPL", 2, 100⟩).value = some ((2 : ℚ) * 150)
    ∧ (enrich_one (fun s => if s = str "AAPL"
        then some ⟨str "AAPL", 150, 0, 0, 7, str "yfinance", 0, 0⟩ else none)
      ⟨str "AAPL", 2, 100⟩).pl_percent =
        ((2 : ℚ) * 150 - 2 * 100) / (2 * 100) * 100
    ∧ (2 : ℚ) * 100 = 200 ∧ (2 : ℚ) * 150 = 300
    ∧ ((2 : ℚ) * 150 - 2 * 100) / (2 * 100) * 100 = 50
    ∧ (enrich_one (fun s => if s = str "AAPL"
        then some ⟨str "AAPL", 150, 0, 0, 7, str "yfinance", 0, 0⟩ else none)
      ⟨str "AAPL", 5, 0⟩).pl_percent = 0 := by
  have h := enrich_success_valuation
    (fun s => if s = str "AAPL"
      then some ⟨str "AAPL", 150, 0, 0, 7, str "yfinance", 0, 0⟩ else none)
    ⟨str "AAPL", 2, 100⟩ ⟨str "AAPL", 150, 0, 0, 7, str "yfinance", 0, 0⟩
    (by decide)
  have h2 := enrich_success_valuation
    (fun s => if s = str "AAPL"
      then some ⟨str "AAPL", 150, 0, 0, 7, str "yfinance", 0, 0⟩ else none)
    ⟨str "AAPL", 5, 0⟩ ⟨str "AAPL", 150, 0, 0, 7, str "yfinance", 0, 0⟩
    (by decide)
  refine ⟨h.1, h.2.2.1, h.2.2.2.2.1 (by norm_num), by norm_num, by norm_num,
    by norm_num, h2.2.2.2.2.2 (by norm_num)⟩

/-- C7: `get_daily` is total and never raises: for every symbol and range it
returns a Series carrying that symbol; on any upstream failure the points are
empty, and on success there is one `(time, close)` point per returned bar,
preserving the upstream (ascending trading-day) order. -/
theorem get_series_never_fails {E : Type}
    (feed : PyStr → PyStr → Except E (List (Nat × ℚ))) (symbol range : PyStr) :
    (get_daily feed symbol range).symbol = symbol
    ∧ (∀ e, feed symbol range = .error e →
        (get_daily feed symbol range).points = [])
    ∧ ∀ rows, feed symbol range = .ok rows →
        (get_daily feed symbol range).points
          = rows.map (fun bar => ⟨bar.1, bar.2⟩)
        ∧ (get_daily feed symbol range).points.length = rows.length
        ∧ (rows.Pairwise (fun a b => a.1 < b.1) →
            (get_daily feed symbol range).points.Pairwise
              (fun p q => p.time < q.time)) := by
  refine ⟨?_, ?_, ?_⟩
  · unfold get_daily
    cases feed symbol range <;> rfl
  · intro e he
    unfold get_daily
    rw [he]
  · intro rows hr
    unfold get_daily
    rw [hr]
    refine ⟨rfl, by simp, ?_⟩
    intro hpw
    show (rows.map (fun bar => (⟨bar.1, bar.2⟩ : Point))).Pairwise
      (fun p q => p.time < q.time)
    rw [List.pairwise_map]
    exact hpw

/-- Witness for C7: an erroring feed yields an empty series; a two-bar feed
yields points in ascending time order. -/
theorem get_series_never_fails_witness :
    (get_daily (fun _ _ => (Except.error () : Except Unit (List (Nat × ℚ))))
      (str "BTC") (str "1mo")).points = []
    ∧ (get_daily
        (fun _ _ => (Except.ok [(1, (10 : ℚ)), (2, 11)] :
          Except Unit (List (Nat × ℚ))))
        (str "BTC") (str "1mo")).points.Pairwise
          (fun p q => p.time < q.time) := by
  have h1 := get_series_never_fails (E := Unit) (fun _ _ => .error ())
    (str "BTC") (str "1mo")
  have h2 := get_series_never_fails (E := Unit)
    (fun _ _ => .ok [(1, 10), (2, 11)]) (str "BTC") (str "1mo")
  exact ⟨h1.2.1 () rfl, (h2.2.2 [(1, 10), (2, 11)] rfl).2.2 (by decide)⟩

end FinDash
